import Mathlib

/-!
# kingress — verification of the natural-language specification against the code

Shallow embedding of the kingress reverse proxy (Rust) in Lean 4.

Modelling conventions:
* Rust byte strings (`&[u8]`, `Vec<u8>`, and `String`/`&str`, which are
  UTF-8 byte sequences) are modelled as `List Nat`; `bstr` turns an ASCII
  Lean string literal into its byte list.
* `BTreeMap<String, V>` is modelled as a sorted association list
  (sorted by strict byte-lexicographic order `bytesLt`, the `Ord` of Rust
  strings); `HashMap` and extensional map states are modelled as functions
  `K → Option V`.
* Rust `to_lowercase`/`eq_ignore_ascii_case` are modelled by ASCII
  lowercasing (`asciiLower`), which agrees with the Rust functions on the
  ASCII inputs all the claims are about.
* Fallible operations (`Result`) whose error value is never inspected are
  modelled as `Option`.
-/

namespace Kingress

/-- ASCII byte-string literal helper: the UTF-8 bytes of an ASCII string. -/
def bstr (s : String) : List Nat := s.data.map Char.toNat

/-- ASCII lowercasing of one byte (Rust `u8::to_ascii_lowercase`). -/
def asciiLower (b : Nat) : Nat := if 65 ≤ b ∧ b ≤ 90 then b + 32 else b

/-- Rust `eq_ignore_ascii_case` on byte strings. -/
def eqIgnoreAsciiCase (a b : List Nat) : Bool :=
  a.map asciiLower == b.map asciiLower

/-! ## HTTP/1 framing summary — `src/http1.rs` -/

/-- `HeaderSummary` (src/http1.rs): the three framing-relevant header facts
accumulated while reading a message's headers. -/
structure HeaderSummary where
  content_length : Option Nat
  transfer_encoding_is_chunked : Bool
  connection_is_close : Bool
deriving Repr, DecidableEq

/-- `METHODS_WITHOUT_BODY` (src/http1.rs). -/
def METHODS_WITHOUT_BODY : List (List Nat) :=
  [bstr "GET", bstr "OPTIONS", bstr "HEAD", bstr "DELETE", bstr "CONNECT", bstr "TRACE"]

/-- `HeaderSummary::request_length` (src/http1.rs lines 41–57). -/
def HeaderSummary.request_length (s : HeaderSummary) (method : List Nat) : Option Nat :=
  if s.transfer_encoding_is_chunked then
    none
  else match s.content_length with
  | some length => some length
  | none =>
    if METHODS_WITHOUT_BODY.any (fun m => eqIgnoreAsciiCase method m) then
      some 0
    else if s.connection_is_close then
      none
    else
      some 0

/-- `HeaderSummary::response_length` (src/http1.rs lines 59–69).
The Rust `match` tries `101`, then `100..=199 | 204 | 304`, in order. -/
def HeaderSummary.response_length (s : HeaderSummary) (status_code : Nat) : Option Nat :=
  if status_code = 101 then
    none
  else if (100 ≤ status_code ∧ status_code ≤ 199) ∨ status_code = 204 ∨ status_code = 304 then
    some 0
  else if s.transfer_encoding_is_chunked then
    none
  else
    s.content_length

/-! Spec-side restatement of the §4.1 framing tables, written from the
sentences of claim C2, to be compared with the source functions above. -/

/-- The request-side table of §4.1, as worded in the spec (claim C2):
chunked → none; present Content-Length → it; bodyless method → 0;
Connection: close → none; otherwise 0. -/
def specRequestLength (s : HeaderSummary) (method : List Nat) : Option Nat :=
  if s.transfer_encoding_is_chunked then none
  else if s.content_length.isSome then s.content_length
  else if METHODS_WITHOUT_BODY.any (fun m => eqIgnoreAsciiCase method m) then some 0
  else if s.connection_is_close then none
  else some 0

/-- The response-side table of §4.1, as worded in the spec (claim C2):
101 → none; other 1xx, 204, 304 → 0 even with a Content-Length;
chunked → none; otherwise the optional Content-Length. -/
def specResponseLength (s : HeaderSummary) (status_code : Nat) : Option Nat :=
  if status_code = 101 then none
  else if (100 ≤ status_code ∧ status_code ≤ 199) ∨ status_code = 204 ∨ status_code = 304
    then some 0
  else if s.transfer_encoding_is_chunked then none
  else s.content_length

/-- **C2** — For every parsed header set, `body_length` follows the §4.1
tables exactly: the source `request_length`/`response_length` coincide with
the spec's tables on every summary, method, and status code. -/
theorem c2_body_length_follows_tables (s : HeaderSummary) (method : List Nat)
    (status_code : Nat) :
    s.request_length method = specRequestLength s method ∧
      s.response_length status_code = specResponseLength s status_code := by
  constructor
  · unfold HeaderSummary.request_length specRequestLength
    cases h : s.content_length <;> simp [h]
  · rfl

/-! ## Data model — `src/lib.rs` -/

/-- `PortRef` (src/lib.rs): numeric port or symbolic port name. -/
inductive PortRef
  | Number (n : Nat)
  | Name (n : List Nat)
deriving Repr, DecidableEq

/-- `EndpointOptions` (src/lib.rs). Only the three fields the modelled code
paths read (`secure_backends`, `ssl_redirect`, `http2`) are included; the
`forwarded_header` and `cors_allowed_origins` fields are unused by every
claim's code. -/
structure EndpointOptions where
  secure_backends : Bool
  ssl_redirect : Bool
  http2 : Bool
deriving Repr, DecidableEq

/-- `Endpoint` (src/lib.rs). The Rust field `namespace` is a Lean keyword and
is rendered `ns`. -/
structure Endpoint where
  ns : List Nat
  service : List Nat
  port : PortRef
  opts : EndpointOptions
deriving Repr, DecidableEq

/-- `ObjectKey` (src/lib.rs). The Rust field `namespace` is rendered `ns`. -/
structure ObjectKey where
  ns : List Nat
  name : List Nat
deriving Repr, DecidableEq

/-- `CertifiedKey` (src/lib.rs): a PEM-loaded private key and certificate,
opaque to the proxy logic; modelled as the raw byte contents. -/
structure CertifiedKey where
  key : List Nat
  cert : List Nat
deriving Repr, DecidableEq

/-- `path.starts_with(k)` on Rust strings: byte-prefix test. -/
def startsWith (s pre : List Nat) : Bool := pre.isPrefixOf s

/-- Strict byte-lexicographic order on byte strings: the `Ord` used by
`BTreeMap<String, _>` in Rust. -/
def bytesLt : List Nat → List Nat → Bool
  | [], [] => false
  | [], _ :: _ => true
  | _ :: _, [] => false
  | a :: as, b :: bs => a < b || (a == b && bytesLt as bs)

/-- A `BTreeMap<String, α>` is modelled as an association list whose keys are
strictly ascending in `bytesLt` (which is how the Rust map iterates). -/
def SortedKeys {α : Type} (m : List (List Nat × α)) : Prop :=
  List.Chain' (fun p q => bytesLt p.1 q.1 = true) m

/-- `BTreeMap::get`: lookup by key equality. -/
def mapGet {K α : Type} [BEq K] (m : List (K × α)) (k : K) : Option α :=
  (m.find? (fun p => p.1 == k)).map Prod.snd

/-- `HostConfig` (src/lib.rs). `exact_matches` and `prefix_matches` are
`BTreeMap<String, Endpoint>`, modelled as sorted association lists. -/
structure HostConfig where
  tls_secret : Option ObjectKey
  exact_matches : List (List Nat × Endpoint)
  prefix_matches : List (List Nat × Endpoint)
  any_match : Option Endpoint
  tls_key_cert : Option CertifiedKey
deriving Repr, DecidableEq

/-- `HostConfig::default` (src/lib.rs). -/
def HostConfig.empty : HostConfig := ⟨none, [], [], none, none⟩

/-- `HostConfig::is_any_only` (src/lib.rs). -/
def HostConfig.is_any_only (cfg : HostConfig) : Bool :=
  cfg.exact_matches.isEmpty && cfg.prefix_matches.isEmpty

/-- `HostConfig::is_h2_ready` (src/lib.rs). -/
def HostConfig.is_h2_ready (cfg : HostConfig) : Bool :=
  cfg.is_any_only &&
    match cfg.any_match with
    | none => false
    | some any => any.opts.secure_backends && any.opts.http2

/-- `HostConfig::endpoint_for` (src/lib.rs lines 113–126): exact match first,
else the first entry of `prefix_matches` *iterated in reverse order* whose key
is a prefix of the path, else `any_match`. -/
def HostConfig.endpoint_for (cfg : HostConfig) (path : List Nat) : Option Endpoint :=
  match mapGet cfg.exact_matches path with
  | some ep => some ep
  | none =>
    match cfg.prefix_matches.reverse.find? (fun p => startsWith path p.1) with
    | some p => some p.2
    | none => cfg.any_match

/-! Order and prefix lemmas used to characterise `endpoint_for`. -/

theorem bytesLt_irrefl (a : List Nat) : bytesLt a a = false := by
  induction a with
  | nil => rfl
  | cons x xs ih => simp [bytesLt, ih]

theorem bytesLt_trans :
    ∀ {a b c : List Nat}, bytesLt a b = true → bytesLt b c = true → bytesLt a c = true := by
  intro a
  induction a with
  | nil =>
    intro b c hab hbc
    cases b with
    | nil => simp [bytesLt] at hab
    | cons y ys => cases c with
      | nil => simp [bytesLt] at hbc
      | cons z zs => simp [bytesLt]
  | cons x xs ih =>
    intro b c hab hbc
    cases b with
    | nil => simp [bytesLt] at hab
    | cons y ys =>
      cases c with
      | nil => simp [bytesLt] at hbc
      | cons z zs =>
        simp only [bytesLt, Bool.or_eq_true, Bool.and_eq_true, beq_iff_eq,
          decide_eq_true_eq] at hab hbc ⊢
        rcases hab with h1 | ⟨rfl, h1⟩
        · rcases hbc with h2 | ⟨rfl, h2⟩
          · exact Or.inl (Nat.lt_trans h1 h2)
          · exact Or.inl h1
        · rcases hbc with h2 | ⟨rfl, h2⟩
          · exact Or.inl h2
          · exact Or.inr ⟨rfl, ih h1 h2⟩

theorem bytesLt_asymm {a b : List Nat} (h : bytesLt a b = true) : bytesLt b a = false := by
  by_contra hc
  have hba : bytesLt b a = true := by
    cases hx : bytesLt b a
    · exact absurd hx hc
    · rfl
  have := bytesLt_trans h hba
  rw [bytesLt_irrefl] at this
  exact Bool.false_ne_true this

theorem isPrefixOf_length {pre s : List Nat} (h : pre.isPrefixOf s = true) :
    pre.length ≤ s.length := by
  induction pre generalizing s with
  | nil => simp
  | cons x xs ih =>
    cases s with
    | nil => simp [List.isPrefixOf] at h
    | cons y ys =>
      simp only [List.isPrefixOf, Bool.and_eq_true, beq_iff_eq] at h
      simpa using ih h.2

theorem isPrefixOf_total {p1 p2 s : List Nat}
    (h1 : p1.isPrefixOf s = true) (h2 : p2.isPrefixOf s = true) :
    p1.isPrefixOf p2 = true ∨ p2.isPrefixOf p1 = true := by
  induction s generalizing p1 p2 with
  | nil =>
    cases p1 with
    | nil => left; cases p2 <;> simp [List.isPrefixOf]
    | cons x xs => simp [List.isPrefixOf] at h1
  | cons y ys ih =>
    cases p1 with
    | nil => left; cases p2 <;> simp [List.isPrefixOf]
    | cons a as =>
      cases p2 with
      | nil => right; rfl
      | cons b bs =>
        simp only [List.isPrefixOf, Bool.and_eq_true, beq_iff_eq] at h1 h2 ⊢
        rcases ih h1.2 h2.2 with h | h
        · exact Or.inl ⟨h1.1.trans h2.1.symm, h⟩
        · exact Or.inr ⟨h2.1.trans h1.1.symm, h⟩

/-- A proper prefix is strictly smaller in byte-lexicographic order. -/
theorem bytesLt_of_proper_isPrefixOf :
    ∀ {pre s : List Nat}, pre.isPrefixOf s = true → pre ≠ s → bytesLt pre s = true := by
  intro pre
  induction pre with
  | nil =>
    intro s _ hne
    cases s with
    | nil => exact absurd rfl hne
    | cons y ys => rfl
  | cons x xs ih =>
    intro s h hne
    cases s with
    | nil => simp [List.isPrefixOf] at h
    | cons y ys =>
      simp only [List.isPrefixOf, Bool.and_eq_true, beq_iff_eq] at h
      obtain ⟨rfl, h2⟩ := h
      have hne' : xs ≠ ys := fun hx => hne (by rw [hx])
      simp [bytesLt, ih h2 hne']

/-- `find?` on a pairwise-ordered list yields an element maximal among the
matches, for the reversed order. -/
theorem find?_pairwise_first {α : Type} {R : α → α → Prop} {q : α → Bool} :
    ∀ {l : List α} {x : α}, l.Pairwise R → l.find? q = some x →
      q x = true ∧ x ∈ l ∧ ∀ y ∈ l, q y = true → y = x ∨ R x y := by
  intro l
  induction l with
  | nil => intro x _ h; simp at h
  | cons a t ih =>
    intro x hpw hfind
    have hpw' := List.pairwise_cons.mp hpw
    by_cases ha : q a = true
    · rw [List.find?_cons_of_pos _ ha] at hfind
      obtain rfl : a = x := by injection hfind
      refine ⟨ha, List.mem_cons_self _ _, ?_⟩
      intro y hy _
      rcases List.mem_cons.mp hy with rfl | hy
      · exact Or.inl rfl
      · exact Or.inr (hpw'.1 y hy)
    · have ha' : q a = false := by
        cases hx : q a
        · rfl
        · exact absurd hx ha
      rw [List.find?_cons_of_neg _ (by simp [ha'])] at hfind
      obtain ⟨hqx, hmem, hmax⟩ := ih hpw'.2 hfind
      refine ⟨hqx, List.mem_cons_of_mem _ hmem, ?_⟩
      intro y hy hqy
      rcases List.mem_cons.mp hy with rfl | hy
      · exact absurd hqy (by simp [ha'])
      · exact hmax y hy hqy

/-- Sorted keys give a reverse-pairwise ordering on the reversed list. -/
theorem sortedKeys_reverse_pairwise {α : Type} {m : List (List Nat × α)}
    (h : SortedKeys m) :
    m.reverse.Pairwise (fun p q => bytesLt q.1 p.1 = true) := by
  rw [List.pairwise_reverse]
  haveI : IsTrans (List Nat × α) (fun p q => bytesLt p.1 q.1 = true) :=
    ⟨fun _ _ _ hab hbc => bytesLt_trans hab hbc⟩
  exact List.chain'_iff_pairwise.mp h

/-- The match found by reverse iteration over a sorted `prefix_matches` is
maximal in sort order among the matching keys, and is the longest matching
key (matching keys are prefixes of the same path, so mutually comparable). -/
theorem endpoint_for_reverse_find_max {cfg : HostConfig} {path : List Nat}
    {x : List Nat × Endpoint}
    (hs : SortedKeys cfg.prefix_matches)
    (hfind : cfg.prefix_matches.reverse.find? (fun p => startsWith path p.1) = some x) :
    startsWith path x.1 = true ∧ x ∈ cfg.prefix_matches ∧
      ∀ kv ∈ cfg.prefix_matches, startsWith path kv.1 = true →
        bytesLt x.1 kv.1 = false ∧ kv.1.length ≤ x.1.length := by
  obtain ⟨hqx, hmem, hmax⟩ :=
    find?_pairwise_first (sortedKeys_reverse_pairwise hs) hfind
  rw [List.mem_reverse] at hmem
  refine ⟨hqx, hmem, ?_⟩
  intro kv hkv hq
  rcases hmax kv (List.mem_reverse.mpr hkv) hq with rfl | hlt
  · exact ⟨by rw [bytesLt_irrefl], le_refl _⟩
  · refine ⟨bytesLt_asymm hlt, ?_⟩
    have hq' : kv.1.isPrefixOf path = true := hq
    have hqx' : x.1.isPrefixOf path = true := hqx
    rcases isPrefixOf_total hq' hqx' with hp | hp
    · exact isPrefixOf_length hp
    · by_cases he : x.1 = kv.1
      · rw [he]
      · have := bytesLt_of_proper_isPrefixOf hp he
        rw [bytesLt_asymm hlt] at this
        exact absurd this Bool.false_ne_true

/-- **C1** (amended) — For every HostConfig (with sorted `prefix_matches`, as
the Rust `BTreeMap` guarantees) and every path: an `exact_matches` entry for
the path wins; with no exact and no matching prefix, `any_match` is returned;
with matching prefixes, the entry of the maximal-in-sort-order matching key —
which is also the longest matching key — is returned; and when
`prefix_matches` contains the key `"/"`, that map (not `any_match`) supplies
the result for every path *that starts with `"/"`*. -/
theorem c1_endpoint_for_routing (cfg : HostConfig) (path : List Nat)
    (hs : SortedKeys cfg.prefix_matches) :
    (∀ ep, mapGet cfg.exact_matches path = some ep → cfg.endpoint_for path = some ep) ∧
    (mapGet cfg.exact_matches path = none →
      (∀ kv ∈ cfg.prefix_matches, startsWith path kv.1 = false) →
      cfg.endpoint_for path = cfg.any_match) ∧
    (mapGet cfg.exact_matches path = none →
      ∀ kv ∈ cfg.prefix_matches, startsWith path kv.1 = true →
      ∃ k ep, (k, ep) ∈ cfg.prefix_matches ∧ startsWith path k = true ∧
        cfg.endpoint_for path = some ep ∧
        ∀ kv2 ∈ cfg.prefix_matches, startsWith path kv2.1 = true →
          bytesLt k kv2.1 = false ∧ kv2.1.length ≤ k.length) ∧
    (mapGet cfg.exact_matches path = none →
      startsWith path (bstr "/") = true →
      (∃ e, (bstr "/", e) ∈ cfg.prefix_matches) →
      ∃ k ep, (k, ep) ∈ cfg.prefix_matches ∧ cfg.endpoint_for path = some ep) := by
  refine ⟨?_, ?_, ?_, ?_⟩
  · intro ep hep
    unfold HostConfig.endpoint_for
    rw [hep]
  · intro hex hnone
    unfold HostConfig.endpoint_for
    rw [hex]
    have : cfg.prefix_matches.reverse.find? (fun p => startsWith path p.1) = none := by
      rw [List.find?_eq_none]
      intro kv hkv
      simp [hnone kv (List.mem_reverse.mp hkv)]
    rw [this]
  · intro hex kv hkv hq
    cases hfind : cfg.prefix_matches.reverse.find? (fun p => startsWith path p.1) with
    | none =>
      rw [List.find?_eq_none] at hfind
      exact absurd hq (by simpa using hfind kv (List.mem_reverse.mpr hkv))
    | some x =>
      obtain ⟨hqx, hmem, hmax⟩ := endpoint_for_reverse_find_max hs hfind
      refine ⟨x.1, x.2, by simpa using hmem, hqx, ?_, hmax⟩
      unfold HostConfig.endpoint_for
      rw [hex, hfind]
  · intro hex hsl ⟨e, he⟩
    cases hfind : cfg.prefix_matches.reverse.find? (fun p => startsWith path p.1) with
    | none =>
      rw [List.find?_eq_none] at hfind
      exact absurd hsl (by simpa using hfind _ (List.mem_reverse.mpr he))
    | some x =>
      obtain ⟨hqx, hmem, _⟩ := endpoint_for_reverse_find_max hs hfind
      refine ⟨x.1, x.2, by simpa using hmem, ?_⟩
      unfold HostConfig.endpoint_for
      rw [hex, hfind]

/-- Executable check for `SortedKeys`. -/
def sortedKeysB {α : Type} : List (List Nat × α) → Bool
  | [] => true
  | [_] => true
  | p :: q :: rest => bytesLt p.1 q.1 && sortedKeysB (q :: rest)

theorem sortedKeys_iff {α : Type} (m : List (List Nat × α)) :
    SortedKeys m ↔ sortedKeysB m = true := by
  induction m with
  | nil => simp [SortedKeys, sortedKeysB]
  | cons p rest ih =>
    cases rest with
    | nil => simp [SortedKeys, sortedKeysB]
    | cons q rest' =>
      unfold SortedKeys at ih ⊢
      rw [List.chain'_cons, sortedKeysB, Bool.and_eq_true, ih]

instance {α : Type} (m : List (List Nat × α)) : Decidable (SortedKeys m) :=
  decidable_of_iff _ (sortedKeys_iff m).symm

/-- First endpoint used in the C1 counterexample. -/
def c1e1 : Endpoint := ⟨bstr "ns", bstr "svc1", .Number 1, ⟨false, false, false⟩⟩

/-- Second endpoint used in the C1 counterexample. -/
def c1e2 : Endpoint := ⟨bstr "ns", bstr "svc2", .Number 2, ⟨false, false, false⟩⟩

/-- HostConfig of the C1 counterexample: `prefix_matches = {"/" ↦ c1e1}`,
`any_match = c1e2`. -/
def c1cfg : HostConfig := ⟨none, [], [(bstr "/", c1e1)], some c1e2, none⟩

/-- **C1 counterexample** — the claim's corollary «when `prefix_matches`
contains the key `"/"`, that entry wins over `any_match` for *every* path» is
false: the request path `"*"` (e.g. `OPTIONS * HTTP/1.1`) does not start with
`"/"`, so `endpoint_for` falls through to `any_match`, not the `"/"` entry. -/
theorem c1_counterexample :
    (bstr "/", c1e1) ∈ c1cfg.prefix_matches ∧
    SortedKeys c1cfg.prefix_matches ∧
    c1cfg.any_match = some c1e2 ∧
    c1cfg.endpoint_for (bstr "*") = some c1e2 ∧
    c1e2 ≠ c1e1 := by
  refine ⟨by decide, by decide, by decide, by decide, by decide⟩

/-- **C1 witness** — the amended routing theorem applied to the concrete
HostConfig above at path `"/x"`. -/
theorem c1_witness :
    SortedKeys c1cfg.prefix_matches ∧ c1cfg.endpoint_for (bstr "/x") = some c1e1 := by
  obtain ⟨-, -, h3, -⟩ := c1_endpoint_for_routing c1cfg (bstr "/x") (by decide)
  obtain ⟨k, ep, hmem, hq, heq, hmax⟩ :=
    h3 (by decide) (bstr "/", c1e1) (by decide) (by decide)
  have h : (k, ep) = (bstr "/", c1e1) := List.mem_singleton.mp hmem
  have hep : ep = c1e1 := congrArg Prod.snd h
  exact ⟨by decide, by rw [heq, hep]⟩

/-! ## Outbound request head rewrite — `src/main.rs` `handle_http1_connection` -/

/-- CRLF. -/
def crlf : List Nat := [13, 10]

/-- `Writer::header_raw` (src/http1.rs lines 262–269): emits
`name ++ ": " ++ value ++ CRLF`. -/
def writerHeader (name value : List Nat) : List Nat :=
  name ++ bstr ": " ++ value ++ crlf

/-- `Writer::done` (src/http1.rs lines 228–231): the buffer followed by the
terminating CRLF. -/
def writerDone (w : List Nat) : List Nat := w ++ crlf

/-- A request header as the connection handler consumes it
(`http1::HeaderRead::Header` in src/main.rs). The header type main.rs calls is
not among the sources under src/ (src/http1.rs carries an older
`header_name`/`header_value` API). Modelled from the spec: a read header
carries its `name` bytes and the raw line bytes as read (`into_raw`), which
are appended verbatim (§4.4.A step 11); name matching (`Header::is`) is
ASCII-case-insensitive (§4.1, "Header-name matching is ASCII-case-insensitive
throughout"). -/
structure Header where
  name : List Nat
  raw : List Nat
deriving Repr, DecidableEq

/-- `Header::is`: ASCII-case-insensitive name comparison (modelled from the
spec, see `Header`). -/
def Header.is (h : Header) (n : List Nat) : Bool := eqIgnoreAsciiCase h.name n

/-- The drop condition of src/main.rs lines 374–378: inbound `Forwarded` /
`X-Forwarded-*` headers are skipped. -/
def isForwardedHeader (h : Header) : Bool :=
  h.is (bstr "Forwarded") || h.is (bstr "X-Forwarded-For") ||
    h.is (bstr "X-Forwarded-Proto") || h.is (bstr "X-Forwarded-Host")

/-- `LEGACY_XFORWARDED` (src/main.rs line 26). -/
def LEGACY_XFORWARDED : Bool := true

/-- The `Forwarded` header value of src/main.rs line 360:
`for="<remote>";proto=<proto>;host=<host>`. -/
def forwardedValue (remote proto host : List Nat) : List Nat :=
  bstr "for=\"" ++ remote ++ bstr "\";proto=" ++ proto ++ bstr ";host=" ++ host

/-- src/main.rs lines 354–366: request line, Host header, `Forwarded`, and
(under `LEGACY_XFORWARDED`) the three `X-Forwarded-*` headers. -/
def initialDataBase (reqLineRaw hostRaw remote proto host : List Nat) : List Nat :=
  reqLineRaw ++ hostRaw
    ++ writerHeader (bstr "Forwarded") (forwardedValue remote proto host)
    ++ (if LEGACY_XFORWARDED then
          writerHeader (bstr "X-Forwarded-For") remote
            ++ writerHeader (bstr "X-Forwarded-Proto") proto
            ++ writerHeader (bstr "X-Forwarded-Host") host
        else [])

/-- The header loop of src/main.rs lines 368–388: every remaining client
header is appended verbatim unless it is a `Forwarded`/`X-Forwarded-*`
header. -/
def appendClientHeaders (w : List Nat) (headers : List Header) : List Nat :=
  headers.foldl (fun acc h => if isForwardedHeader h then acc else acc ++ h.raw) w

/-- The finalized outgoing request head (`initial_data.done()`,
src/main.rs line 391). -/
def buildInitialData (reqLineRaw hostRaw remote proto host : List Nat)
    (headers : List Header) : List Nat :=
  writerDone (appendClientHeaders (initialDataBase reqLineRaw hostRaw remote proto host) headers)

/-- The four headers the proxy injects, as (name, raw line) pairs. -/
def injectedHeaders (remote proto host : List Nat) : List Header :=
  [⟨bstr "Forwarded", writerHeader (bstr "Forwarded") (forwardedValue remote proto host)⟩,
   ⟨bstr "X-Forwarded-For", writerHeader (bstr "X-Forwarded-For") remote⟩,
   ⟨bstr "X-Forwarded-Proto", writerHeader (bstr "X-Forwarded-Proto") proto⟩,
   ⟨bstr "X-Forwarded-Host", writerHeader (bstr "X-Forwarded-Host") host⟩]

/-- The header lines of the outgoing head after the Host header: the injected
headers followed by the kept (non-`Forwarded`-family) client headers. -/
def outgoingHeaders (remote proto host : List Nat) (headers : List Header) : List Header :=
  injectedHeaders remote proto host ++ headers.filter (fun h => !isForwardedHeader h)

theorem isPrefixOf_append_self (l r : List Nat) : l.isPrefixOf (l ++ r) = true := by
  induction l with
  | nil => cases r <;> simp [List.isPrefixOf]
  | cons x xs ih => simp [List.isPrefixOf, ih]

theorem appendClientHeaders_eq (w : List Nat) (headers : List Header) :
    appendClientHeaders w headers =
      w ++ ((headers.filter (fun h => !isForwardedHeader h)).map Header.raw).flatten := by
  induction headers generalizing w with
  | nil => simp [appendClientHeaders]
  | cons h t ih =>
    unfold appendClientHeaders at ih ⊢
    cases hd : isForwardedHeader h <;>
      simp [hd, ih, List.filter_cons, List.append_assoc]

/-- **C3** — For every request routed to a backend, the outgoing head starts
with the original request line and Host header verbatim; its header lines
after the Host header are exactly one injected `Forwarded`, one each of
`X-Forwarded-For` / `X-Forwarded-Proto` / `X-Forwarded-Host`, followed by the
raw bytes of exactly the client headers that are not in the
`Forwarded`/`X-Forwarded-*` family (ASCII-case-insensitively), appended
verbatim — so no inbound `Forwarded`-family bytes remain. -/
theorem c3_request_head_rewrite (reqLineRaw hostRaw remote proto host : List Nat)
    (headers : List Header) :
    startsWith (buildInitialData reqLineRaw hostRaw remote proto host headers)
        (reqLineRaw ++ hostRaw) = true ∧
    buildInitialData reqLineRaw hostRaw remote proto host headers =
      reqLineRaw ++ hostRaw
        ++ ((outgoingHeaders remote proto host headers).map Header.raw).flatten ++ crlf ∧
    (outgoingHeaders remote proto host headers).countP
        (fun h => h.is (bstr "Forwarded")) = 1 ∧
    (outgoingHeaders remote proto host headers).countP
        (fun h => h.is (bstr "X-Forwarded-For")) = 1 ∧
    (outgoingHeaders remote proto host headers).countP
        (fun h => h.is (bstr "X-Forwarded-Proto")) = 1 ∧
    (outgoingHeaders remote proto host headers).countP
        (fun h => h.is (bstr "X-Forwarded-Host")) = 1 ∧
    (outgoingHeaders remote proto host headers).drop 4 =
      headers.filter (fun h => !isForwardedHeader h) := by
  have hbuild : buildInitialData reqLineRaw hostRaw remote proto host headers =
      reqLineRaw ++ hostRaw
        ++ ((outgoingHeaders remote proto host headers).map Header.raw).flatten ++ crlf := by
    unfold buildInitialData writerDone initialDataBase outgoingHeaders injectedHeaders
    rw [appendClientHeaders_eq]
    simp [LEGACY_XFORWARDED, List.append_assoc]
  have hkept : ∀ p : Header → Bool,
      (∀ h : Header, p h = true → isForwardedHeader h = true) →
      (headers.filter (fun h => !isForwardedHeader h)).countP p = 0 := by
    intro p hp
    rw [List.countP_eq_zero]
    intro h hmem
    obtain ⟨-, hf⟩ := List.mem_filter.mp hmem
    intro hph
    rw [hp h hph] at hf
    simp at hf
  have hcount : ∀ name : List Nat,
      (∀ h : Header, h.is name = true → isForwardedHeader h = true) →
      (outgoingHeaders remote proto host headers).countP (fun h => h.is name) =
        (injectedHeaders remote proto host).countP (fun h => h.is name) := by
    intro name hn
    unfold outgoingHeaders
    rw [List.countP_append, hkept _ hn, Nat.add_zero]
  have hinj : ∀ name : List Nat,
      (injectedHeaders remote proto host).countP (fun h => h.is name) =
        ([bstr "Forwarded", bstr "X-Forwarded-For", bstr "X-Forwarded-Proto",
          bstr "X-Forwarded-Host"].countP (fun m => eqIgnoreAsciiCase m name)) := by
    intro name
    simp [injectedHeaders, List.countP_cons, Header.is]
  refine ⟨?_, hbuild, ?_, ?_, ?_, ?_, ?_⟩
  · rw [hbuild, List.append_assoc (reqLineRaw ++ hostRaw)]
    unfold startsWith
    exact isPrefixOf_append_self _ _
  · rw [hcount (bstr "Forwarded") (fun h hh => by simp [isForwardedHeader, hh]), hinj]
    decide
  · rw [hcount (bstr "X-Forwarded-For") (fun h hh => by simp [isForwardedHeader, hh]), hinj]
    decide
  · rw [hcount (bstr "X-Forwarded-Proto") (fun h hh => by simp [isForwardedHeader, hh]), hinj]
    decide
  · rw [hcount (bstr "X-Forwarded-Host") (fun h hh => by simp [isForwardedHeader, hh]), hinj]
    decide
  · unfold outgoingHeaders injectedHeaders
    simp

/-! ## Forwarding outcome and keep-alive — `src/main.rs` `forward_to_backend`,
`copy_req_and_resp`, and the keep-alive decision of `handle_http1_connection` -/

/-- Decimal rendering of a number (Rust `usize::to_string`). -/
def natDec (n : Nat) : List Nat := (Nat.repr n).data.map Char.toNat

/-- `http1::response::plain` (src/http1/response.rs): status line,
`Content-Type: text/plain`, `Content-Length`, blank line, message plus a
trailing newline. -/
def responsePlain (status message : List Nat) : List Nat :=
  bstr "HTTP/1.1 " ++ status ++ crlf
    ++ writerHeader (bstr "Content-Type") (bstr "text/plain")
    ++ writerHeader (bstr "Content-Length") (natDec (message.length + 1))
    ++ crlf ++ message ++ [10]

/-- `http1::response::status` (src/http1/response.rs): the status text is
also the body. -/
def responseStatus (status : List Nat) : List Nat := responsePlain status status

/-- The externally visible steps of `forward_to_backend`, abstracting the
byte streams: the initial head write, the error reply, and the three copies
(request body, response header, response body). -/
inductive FwdAction
  | writeBackend (bytes : List Nat)
  | writeClient (bytes : List Nat)
  | copyReqBody
  | copyRespHeader
  | copyRespBody
deriving Repr, DecidableEq

/-- Which of the two raced futures of `forward_to_backend` (src/main.rs lines
611–629) completes first: the response-header copy or the request-body
copy. -/
inductive RaceOrder
  | hdrFirst
  | reqFirst
deriving Repr, DecidableEq

/-- `copy_req_and_resp` (src/main.rs lines 658–701): whichever order the two
copies finish in, the result is `true` iff both completed without error. -/
def copyReqAndResp (reqOk respOk : Bool) : Bool := reqOk && respOk

/-- `forward_to_backend` (src/main.rs lines 585–656), as a function of the
I/O outcomes: `initialOk` is the head write to the backend, `reqOk` the
client→backend body copy, `hdrResult` the response-header copy (`none` =
failed, `some respLen` = parsed with that body length), `respOk` the
backend→client response-body copy. Returns the visible actions and the
"connections can be reused" flag. -/
def forwardToBackend (initialData : List Nat) (initialOk : Bool) (race : RaceOrder)
    (reqOk : Bool) (hdrResult : Option (Option Nat)) (respOk : Bool) :
    List FwdAction × Bool :=
  if !initialOk then
    ([.writeBackend initialData, .writeClient (responseStatus (bstr "502 Bad Gateway"))], false)
  else
    match race with
    | .reqFirst =>
      if !reqOk then
        ([.writeBackend initialData, .copyReqBody], false)
      else
        match hdrResult with
        | none => ([.writeBackend initialData, .copyReqBody, .copyRespHeader], false)
        | some respLen =>
          ([.writeBackend initialData, .copyReqBody, .copyRespHeader, .copyRespBody],
            respOk && respLen.isSome)
    | .hdrFirst =>
      match hdrResult with
      | none => ([.writeBackend initialData, .copyRespHeader], false)
      | some respLen =>
        ([.writeBackend initialData, .copyRespHeader, .copyReqBody, .copyRespBody],
          copyReqAndResp reqOk respOk && respLen.isSome)

/-- The keep-alive decision of `handle_http1_connection` (src/main.rs line
422): the forward result AND a known request body length. -/
def canReuse (forwardResult : Bool) (reqContentLength : Option Nat) : Bool :=
  forwardResult && reqContentLength.isSome

/-- **C4** (amended) — the connection is kept alive iff the initial head
write, the request-body copy, the response-header copy and the response-body
copy all completed without error, AND the request body length was known, AND
the response body length computed from the response framing was also known —
regardless of which raced future completed first. -/
theorem c4_keep_alive (initialData : List Nat) (initialOk : Bool) (race : RaceOrder)
    (reqOk : Bool) (hdrResult : Option (Option Nat)) (respOk : Bool)
    (reqLen : Option Nat) :
    canReuse (forwardToBackend initialData initialOk race reqOk hdrResult respOk).2 reqLen
        = true ↔
      initialOk = true ∧ reqOk = true ∧ respOk = true ∧
        (∃ l, hdrResult = some (some l)) ∧ reqLen.isSome = true := by
  cases initialOk <;> cases reqOk <;> cases respOk <;> cases race <;>
    rcases hdrResult with - | - | l <;>
      simp [forwardToBackend, canReuse, copyReqAndResp]

/-- **C4 counterexample** — the claim as stated is false: with both copies
completed without error (`reqOk = respOk = true`, header parse included) and
a known request body length (`some 0`), the connection is still NOT reused,
because the response body length was unknown (`some none`: e.g. a response
with neither `Content-Length` nor a no-body status). -/
theorem c4_counterexample :
    canReuse (forwardToBackend [] true .hdrFirst true (some none) true).2 (some 0) = false ∧
      (true && true) = true ∧ (some 0 : Option Nat).isSome = true := by
  decide

/-- Actions that move request/response payload or header bytes. -/
def isCopyAction : FwdAction → Bool
  | .copyReqBody => true
  | .copyRespHeader => true
  | .copyRespBody => true
  | _ => false

/-- **C9** — if writing the rewritten request head to the backend fails, the
handler replies `502 Bad Gateway` to the client (exact wire bytes computed),
reports the connection as not reusable, and performs no body copying at
all. -/
theorem c9_initial_write_failure (initialData : List Nat) (race : RaceOrder)
    (reqOk : Bool) (hdrResult : Option (Option Nat)) (respOk : Bool) :
    forwardToBackend initialData false race reqOk hdrResult respOk =
      ([.writeBackend initialData,
        .writeClient (responseStatus (bstr "502 Bad Gateway"))], false) ∧
    (forwardToBackend initialData false race reqOk hdrResult respOk).1.countP
        isCopyAction = 0 ∧
    responseStatus (bstr "502 Bad Gateway") =
      bstr "HTTP/1.1 502 Bad Gateway\r\nContent-Type: text/plain\r\nContent-Length: 16\r\n\r\n502 Bad Gateway\n" := by
  refine ⟨rfl, ?_, by decide⟩
  simp [forwardToBackend, isCopyAction]

/-! ## Cluster-API endpoint-slice resolution — `src/resolvers/kube.rs` -/

/-- A port entry of an endpoint slice (k8s `EndpointPort`). -/
structure SlicePort where
  name : Option (List Nat)
  port : Option Int
deriving Repr, DecidableEq

/-- An endpoint entry of an endpoint slice (k8s `Endpoint`): addresses, an
optional zone, and the `conditions.ready` field. The code under
src/resolvers/kube.rs never reads `ready`; it is part of the data model the
spec talks about. -/
structure SliceEndpoint where
  addresses : List (List Nat)
  zone : Option (List Nat)
  ready : Option Bool
deriving Repr, DecidableEq

/-- A k8s `EndpointSlice` object, as consumed by the resolver. -/
structure EndpointSlice where
  ports : Option (List SlicePort)
  endpoints : List SliceEndpoint
deriving Repr, DecidableEq

/-- Rust `i32 as u16`: the low 16 bits of the two's-complement value. -/
def i32AsU16 (p : Int) : Nat := (p % 65536).toNat

/-- The endpoint filter the source actually applies (src/resolvers/kube.rs,
`self.zone.is_none_or(|z| Some(z) == ep.zone.as_ref())`): zone equality when
a zone is configured, otherwise keep everything. -/
def zoneKeep (zone : Option (List Nat)) (ep : SliceEndpoint) : Bool :=
  match zone with
  | none => true
  | some z => ep.zone == some z

/-- `Resolver::resolve_using_endpoint_slices` (src/resolvers/kube.rs lines
73–118), given the already-resolved symbolic port name: for each slice, find
the slice port whose name matches, keep the endpoints passing the zone
filter, parse their addresses (`parseIp` stands for
`str::parse::<IpAddr>().ok()`), and pair each address with that port. -/
def resolveUsingEndpointSlices (parseIp : List Nat → Option Nat)
    (zone : Option (List Nat)) (portName : List Nat)
    (slices : List EndpointSlice) : List (Nat × Nat) :=
  (slices.filterMap (fun slice =>
    match slice.ports with
    | none => none
    | some ports =>
      match (ports.filter (fun p => p.name == some portName)).findSome?
          (fun p => p.port) with
      | none => none
      | some prt =>
        some ((((slice.endpoints.filter (zoneKeep zone)).map
            (fun ep => ep.addresses)).flatten.filterMap parseIp).map
              (fun ip => (ip, i32AsU16 prt))))).flatten

/-- The port lookup of one slice, shared by the spec-side restatements. -/
def slicePortFor (portName : List Nat) (slice : EndpointSlice) : Option Nat :=
  match slice.ports with
  | none => none
  | some ports =>
    ((ports.filter (fun p => p.name == some portName)).findSome?
      (fun p => p.port)).map i32AsU16

/-- The endpoint filter as claim C5 words it: zone equality when a zone is
configured, otherwise a ready condition that is true or unknown. -/
def specSliceKeep (zone : Option (List Nat)) (ep : SliceEndpoint) : Bool :=
  match zone with
  | some z => ep.zone == some z
  | none => ep.ready == some true || ep.ready == none

/-- The resolution as claim C5 describes it: `{kept addresses} × {matched
port}` per slice, with the keep condition `specSliceKeep` (including the
ready test). -/
def specResolveWithReady (parseIp : List Nat → Option Nat)
    (zone : Option (List Nat)) (portName : List Nat)
    (slices : List EndpointSlice) : List (Nat × Nat) :=
  slices.flatMap (fun slice =>
    match slicePortFor portName slice with
    | none => []
    | some prt =>
      ((slice.endpoints.filter (specSliceKeep zone)).flatMap
        (fun ep => ep.addresses.filterMap parseIp)).map (fun ip => (ip, prt)))

/-- The resolution as the amended claim describes it: same shape, but the
keep condition is the zone filter only (all endpoints when no zone is
configured); readiness is not consulted. -/
def specResolveZoneOnly (parseIp : List Nat → Option Nat)
    (zone : Option (List Nat)) (portName : List Nat)
    (slices : List EndpointSlice) : List (Nat × Nat) :=
  slices.flatMap (fun slice =>
    match slicePortFor portName slice with
    | none => []
    | some prt =>
      ((slice.endpoints.filter (zoneKeep zone)).flatMap
        (fun ep => ep.addresses.filterMap parseIp)).map (fun ip => (ip, prt)))

theorem filterMap_flatten_map {α β γ : Type} (g : β → Option γ) (f : α → List β) :
    ∀ l : List α, ((l.map f).flatten).filterMap g =
      l.flatMap (fun x => (f x).filterMap g) := by
  intro l
  induction l with
  | nil => rfl
  | cons x xs ih =>
    rw [List.map_cons, List.flatten_cons, List.filterMap_append, List.flatMap_cons, ih]

/-- **C5** (amended) — the slice resolution keeps exactly the endpoints
passing the zone filter (all of them when no zone is configured; the ready
condition is never consulted), each parsed address paired with the slice port
matching the resolved port name. -/
theorem filterMap_flatten_eq_flatMap {α β : Type} {f : α → Option (List β)}
    {g : α → List β} (h : ∀ a, (f a).getD [] = g a) :
    ∀ l : List α, (l.filterMap f).flatten = l.flatMap g := by
  intro l
  induction l with
  | nil => rfl
  | cons a t ih =>
    have ha := h a
    rw [List.filterMap_cons, List.flatMap_cons]
    cases hfa : f a with
    | none =>
      rw [hfa] at ha
      simp only [Option.getD_none] at ha
      rw [ih, ← ha, List.nil_append]
    | some b =>
      rw [hfa] at ha
      simp only [Option.getD_some] at ha
      rw [List.flatten_cons, ih, ha]

/-- **C5** (amended) — the slice resolution keeps exactly the endpoints
passing the zone filter (all of them when no zone is configured; the ready
condition is never consulted), each parsed address paired with the slice port
matching the resolved port name. -/
theorem c5_resolve_endpoint_slices (parseIp : List Nat → Option Nat)
    (zone : Option (List Nat)) (portName : List Nat)
    (slices : List EndpointSlice) :
    resolveUsingEndpointSlices parseIp zone portName slices =
      specResolveZoneOnly parseIp zone portName slices := by
  unfold resolveUsingEndpointSlices specResolveZoneOnly
  apply filterMap_flatten_eq_flatMap
  intro slice
  cases hp : slice.ports with
  | none => simp [slicePortFor, hp]
  | some ports =>
    cases hf : (ports.filter (fun p => p.name == some portName)).findSome?
        (fun p => p.port) with
    | none => simp [slicePortFor, hp, hf]
    | some prt =>
      simp only [slicePortFor, hp, hf, Option.getD_some]
      rw [filterMap_flatten_map]
      simp

/-- Toy address parser for the C5 claims: parses exactly `"10.0.0.1"`. -/
def c5parseIp : List Nat → Option Nat :=
  fun b => if b == bstr "10.0.0.1" then some 1 else none

/-- One slice with one port named `http` (8080) and one NOT-ready endpoint
(`conditions.ready = false`), no zone. -/
def c5slices : List EndpointSlice :=
  [⟨some [⟨some (bstr "http"), some 8080⟩],
    [⟨[bstr "10.0.0.1"], none, some false⟩]⟩]

/-- **C5 counterexample** — with no zone configured, the code returns the
address of an endpoint whose ready condition is `false`, while the claim
("keep endpoints … whose ready condition is true or unknown") returns
nothing: the ready condition is never consulted by the source. -/
theorem c5_counterexample :
    resolveUsingEndpointSlices c5parseIp none (bstr "http") c5slices = [(1, 8080)] ∧
      specResolveWithReady c5parseIp none (bstr "http") c5slices = [] := by
  decide

/-- **C5 witness** — the amended theorem evaluated at the concrete slice
set above: both sides return the not-ready endpoint's address. -/
theorem c5_witness :
    resolveUsingEndpointSlices c5parseIp none (bstr "http") c5slices =
      specResolveZoneOnly c5parseIp none (bstr "http") c5slices ∧
      specResolveZoneOnly c5parseIp none (bstr "http") c5slices = [(1, 8080)] :=
  ⟨c5_resolve_endpoint_slices c5parseIp none (bstr "http") c5slices, by decide⟩

/-! ## Config assembler — `src/main.rs` `KubeWatcher`, `WatcherState`,
`ingest_event`, and the snapshot construction of `run_once` -/

/-- `kube::runtime::watcher::Event` as the spec's event algebra. -/
inductive WatchEvent (V : Type)
  | Init
  | InitApply (v : V)
  | InitDone
  | Apply (v : V)
  | Delete (v : V)
deriving Repr, DecidableEq

/-- `BTreeMap::insert` on the sorted-association-list model: place the new
pair by the strict order `lt`, replacing an equal key in place. -/
def insertSorted {K α : Type} [DecidableEq K] (lt : K → K → Bool) :
    List (K × α) → K → α → List (K × α)
  | [], k, v => [(k, v)]
  | (k', v') :: rest, k, v =>
    if lt k k' then (k, v) :: (k', v') :: rest
    else if k = k' then (k, v) :: rest
    else (k', v') :: insertSorted lt rest k v

/-- `BTreeMap::remove` on the sorted-association-list model. -/
def removeKey {K α : Type} [DecidableEq K] : List (K × α) → K → List (K × α)
  | [], _ => []
  | (k', v') :: rest, k => if k = k' then rest else (k', v') :: removeKey rest k

/-- The derived `Ord` of `ObjectKey` (namespace, then name). -/
def okLt (a b : ObjectKey) : Bool :=
  bytesLt a.ns b.ns || (a.ns == b.ns && bytesLt a.name b.name)

/-- `ingest_event` (src/main.rs lines 960–987), generic in the parsed kind:
`Init` clears; `InitApply`/`Apply` upsert when both key and value parse;
`Delete` removes by key; the returned flag is the kind's readiness. -/
def ingestEvent {K V T : Type} [DecidableEq K] (lt : K → K → Bool)
    (keyFrom : V → Option K) (valueFrom : V → Option T)
    (map : List (K × T)) (event : WatchEvent V) : List (K × T) × Bool :=
  match event with
  | .Init => ([], false)
  | .InitApply v =>
    (match keyFrom v, valueFrom v with
     | some k, some t => insertSorted lt map k t
     | _, _ => map, false)
  | .InitDone => (map, true)
  | .Apply v =>
    (match keyFrom v, valueFrom v with
     | some k, some t => insertSorted lt map k t
     | _, _ => map, true)
  | .Delete v =>
    (match keyFrom v with
     | some k => removeKey map k
     | none => map, true)

/-- `PathMatch` (src/main.rs lines 1143–1148). -/
inductive PathMatch
  | Exact (path : List Nat)
  | Pre (path : List Nat)
  | Any
deriving Repr, DecidableEq

/-- `IngressBackend` (src/main.rs lines 1116–1120). -/
structure IngressBackend where
  service : List Nat
  port : PortRef
deriving Repr, DecidableEq

/-- `IngressMatch` (src/main.rs lines 1069–1073). -/
structure IngressMatch where
  path_match : PathMatch
  backend : Option IngressBackend
deriving Repr, DecidableEq

/-- `IngressMatch::endpoint` (src/main.rs lines 1102–1113). -/
def IngressMatch.endpoint (m : IngressMatch) (ns : List Nat) (opts : EndpointOptions) :
    Option Endpoint :=
  match m.backend with
  | none => none
  | some b => some ⟨ns, b.service, b.port, opts⟩

/-- `IngressRule` (src/main.rs lines 1040–1045). The Rust field `matches` is
a Lean keyword and is rendered `matches_`. -/
structure IngressRule where
  host : List Nat
  tls_secret : Option (List Nat)
  matches_ : List IngressMatch
deriving Repr, DecidableEq

/-- `Ingress` (src/main.rs lines 996–1000): the parsed ingress object. -/
structure Ingress where
  rules : List IngressRule
  endpoint_opts : EndpointOptions
deriving Repr, DecidableEq

/-- A TLS `Secret` object as the watcher consumes it: its metadata key
(`ObjectKey::try_from(&sec.metadata).unwrap()`) and the optional string-keyed
`data` map. -/
structure SecretObj where
  key : ObjectKey
  data : Option (List (List Nat × List Nat))
deriving Repr, DecidableEq

/-- `WatcherState` (src/main.rs lines 869–874). The two `BTreeMap`s are
sorted association lists. -/
structure WatcherState where
  ingresses : List (ObjectKey × Ingress)
  ings_ready : Bool
  secrets : List (ObjectKey × CertifiedKey)
  secrets_ready : Bool
deriving Repr, DecidableEq

/-- `WatcherState::set_secret` (src/main.rs lines 933–953): insert the parsed
key/cert when `data` holds `tls.crt` and `tls.key` and they parse as PEM
(`fromPem` stands for the fallible `CertifiedKey::from_pem`); otherwise keep
the state unchanged. -/
def WatcherState.set_secret (fromPem : List Nat → List Nat → Option CertifiedKey)
    (st : WatcherState) (sec : SecretObj) : WatcherState :=
  match sec.data with
  | none => st
  | some data =>
    match mapGet data (bstr "tls.crt") with
    | none => st
    | some cert =>
      match mapGet data (bstr "tls.key") with
      | none => st
      | some tls_key =>
        match fromPem tls_key cert with
        | none => st
        | some ck => { st with secrets := insertSorted okLt st.secrets sec.key ck }

/-- `WatcherState::ingest_secret_event` (src/main.rs lines 913–931). -/
def WatcherState.ingest_secret_event (fromPem : List Nat → List Nat → Option CertifiedKey)
    (st : WatcherState) (event : WatchEvent SecretObj) : WatcherState :=
  match event with
  | .Init => { st with secrets_ready := false }
  | .InitApply sec => { st.set_secret fromPem sec with secrets_ready := false }
  | .InitDone => { st with secrets_ready := true }
  | .Apply sec => { st.set_secret fromPem sec with secrets_ready := true }
  | .Delete sec =>
    { st with secrets := removeKey st.secrets sec.key, secrets_ready := true }

/-- The ingress arm of `ingest_any_event` (src/main.rs lines 896–911):
`self.ings_ready = ingest_event(&mut self.ingresses, e)`. -/
def WatcherState.ingest_ing_event {V : Type} (keyFrom : V → Option ObjectKey)
    (valueFrom : V → Option Ingress) (st : WatcherState) (event : WatchEvent V) :
    WatcherState :=
  let r := ingestEvent okLt keyFrom valueFrom st.ingresses event
  { st with ingresses := r.1, ings_ready := r.2 }

/-- The per-path-match update of the snapshot construction (src/main.rs
lines 814–832). -/
def applyMatch (ns : List Nat) (opts : EndpointOptions) (cfg : HostConfig)
    (m : IngressMatch) : HostConfig :=
  match m.endpoint ns opts with
  | none => cfg
  | some endpoint =>
    match m.path_match with
    | .Exact path =>
      { cfg with exact_matches := insertSorted bytesLt cfg.exact_matches path endpoint }
    | .Pre path =>
      { cfg with prefix_matches := insertSorted bytesLt cfg.prefix_matches path endpoint }
    | .Any => { cfg with any_match := some endpoint }

/-- The per-rule update of the snapshot construction (src/main.rs lines
799–834): take the host's config built so far (or default), attach the TLS
secret reference and any observed cert, fold the path matches, and store the
result under `rule.host` — verbatim. -/
def applyRule (secrets : List (ObjectKey × CertifiedKey)) (ns : List Nat)
    (opts : EndpointOptions) (hosts : List Nat → Option HostConfig)
    (rule : IngressRule) : List Nat → Option HostConfig :=
  let host_config := (hosts rule.host).getD HostConfig.empty
  let host_config :=
    match rule.tls_secret with
    | some name =>
      { host_config with
          tls_key_cert := mapGet secrets (⟨ns, name⟩ : ObjectKey)
          tls_secret := some ⟨ns, name⟩ }
    | none => host_config
  let host_config := rule.matches_.foldl (applyMatch ns opts) host_config
  fun h => if h == rule.host then some host_config else hosts h

/-- The per-ingress update of the snapshot construction. -/
def applyIngress (secrets : List (ObjectKey × CertifiedKey))
    (hosts : List Nat → Option HostConfig) (kv : ObjectKey × Ingress) :
    List Nat → Option HostConfig :=
  kv.2.rules.foldl (applyRule secrets kv.1.ns kv.2.endpoint_opts) hosts

/-- The snapshot construction of `KubeWatcher::run_once` (src/main.rs lines
795–838): fold every ingress rule into a fresh `Hosts` map (modelled as a
function, as `HashMap` lookup is by byte-for-byte key equality). -/
def assembleHosts (st : WatcherState) : List Nat → Option HostConfig :=
  st.ingresses.foldl (applyIngress st.secrets) (fun _ => none)

/-- `host.trim_ascii()` on bytes. -/
def isAsciiWhitespace (b : Nat) : Bool :=
  b == 32 || b == 9 || b == 10 || b == 12 || b == 13

/-- Rust `trim_ascii`: strip leading and trailing ASCII whitespace. -/
def trimAsciiBytes (b : List Nat) : List Nat :=
  ((b.dropWhile isAsciiWhitespace).reverse.dropWhile isAsciiWhitespace).reverse

/-- The Host normalization of `handle_http1_connection` (src/main.rs lines
330–334): trim ASCII whitespace, lowercase (`to_lowercase`, which on ASCII is
ASCII lowercasing), drop everything from the first `:`. -/
def normalizeHost (hostHeader : List Nat) : List Nat :=
  ((trimAsciiBytes hostHeader).map asciiLower).takeWhile (fun b => !(b == 58))

theorem okLt_irrefl (k : ObjectKey) : okLt k k = false := by
  simp [okLt, bytesLt_irrefl]

theorem insertSorted_idem {K α : Type} [DecidableEq K] (lt : K → K → Bool)
    (k : K) (hlt : lt k k = false) (v : α) :
    ∀ m : List (K × α),
      insertSorted lt (insertSorted lt m k v) k v = insertSorted lt m k v := by
  intro m
  induction m with
  | nil => simp [insertSorted, hlt]
  | cons p rest ih =>
    obtain ⟨k', v'⟩ := p
    by_cases h1 : lt k k' = true
    · simp [insertSorted, h1, hlt]
    · by_cases h2 : k = k'
      · subst h2
        simp [insertSorted, h1, hlt]
      · simp [insertSorted, h1, h2, ih]

/-- **C7** — applying `Apply(v)` twice in succession to the assembler state
(on the ingress stream, and likewise on the secret stream) yields the same
state as applying it once, hence the same published snapshot
(`assembleHosts`). -/
theorem c7_apply_idempotent {V : Type} (keyFrom : V → Option ObjectKey)
    (valueFrom : V → Option Ingress)
    (fromPem : List Nat → List Nat → Option CertifiedKey)
    (st : WatcherState) (v : V) (sec : SecretObj) :
    (st.ingest_ing_event keyFrom valueFrom (.Apply v)).ingest_ing_event keyFrom valueFrom
        (.Apply v) = st.ingest_ing_event keyFrom valueFrom (.Apply v) ∧
    (st.ingest_secret_event fromPem (.Apply sec)).ingest_secret_event fromPem (.Apply sec) =
      st.ingest_secret_event fromPem (.Apply sec) ∧
    assembleHosts ((st.ingest_ing_event keyFrom valueFrom (.Apply v)).ingest_ing_event
        keyFrom valueFrom (.Apply v)) =
      assembleHosts (st.ingest_ing_event keyFrom valueFrom (.Apply v)) := by
  have h1 : (st.ingest_ing_event keyFrom valueFrom (.Apply v)).ingest_ing_event keyFrom
      valueFrom (.Apply v) = st.ingest_ing_event keyFrom valueFrom (.Apply v) := by
    unfold WatcherState.ingest_ing_event ingestEvent
    cases hk : keyFrom v with
    | none => simp [hk]
    | some k =>
      cases hv : valueFrom v with
      | none => simp [hk, hv]
      | some t => simp [hk, hv, insertSorted_idem okLt k (okLt_irrefl k) t]
  refine ⟨h1, ?_, congrArg assembleHosts h1⟩
  unfold WatcherState.ingest_secret_event WatcherState.set_secret
  cases hd : sec.data with
  | none => simp [hd]
  | some data =>
    cases hc : mapGet data (bstr "tls.crt") with
    | none => simp [hd, hc]
    | some cert =>
      cases hk : mapGet data (bstr "tls.key") with
      | none => simp [hd, hc, hk]
      | some tls_key =>
        cases hp : fromPem tls_key cert with
        | none => simp [hd, hc, hk, hp]
        | some ck =>
          simp [hd, hc, hk, hp, insertSorted_idem okLt sec.key (okLt_irrefl sec.key) ck]

/-! Fold lemmas for the snapshot construction (claim C6). -/

theorem applyRule_preserves (secrets : List (ObjectKey × CertifiedKey)) (ns : List Nat)
    (opts : EndpointOptions) (hosts : List Nat → Option HostConfig)
    (rule : IngressRule) (h : List Nat)
    (hh : (hosts h).isSome = true) :
    ((applyRule secrets ns opts hosts rule) h).isSome = true := by
  unfold applyRule
  by_cases he : (h == rule.host) = true <;> simp [he, hh]

theorem applyRule_sets (secrets : List (ObjectKey × CertifiedKey)) (ns : List Nat)
    (opts : EndpointOptions) (hosts : List Nat → Option HostConfig)
    (rule : IngressRule) :
    ((applyRule secrets ns opts hosts rule) rule.host).isSome = true := by
  unfold applyRule
  simp

theorem foldRules_preserves (secrets : List (ObjectKey × CertifiedKey)) (ns : List Nat)
    (opts : EndpointOptions) :
    ∀ (rules : List IngressRule) (hosts : List Nat → Option HostConfig) (h : List Nat),
      (hosts h).isSome = true →
      ((rules.foldl (applyRule secrets ns opts) hosts) h).isSome = true := by
  intro rules
  induction rules with
  | nil => intro hosts h hh; exact hh
  | cons r t ih =>
    intro hosts h hh
    exact ih _ _ (applyRule_preserves secrets ns opts hosts r h hh)

theorem foldRules_sets (secrets : List (ObjectKey × CertifiedKey)) (ns : List Nat)
    (opts : EndpointOptions) :
    ∀ (rules : List IngressRule) (hosts : List Nat → Option HostConfig)
      (rule : IngressRule), rule ∈ rules →
      ((rules.foldl (applyRule secrets ns opts) hosts) rule.host).isSome = true := by
  intro rules
  induction rules with
  | nil => intro hosts rule hmem; simp at hmem
  | cons r t ih =>
    intro hosts rule hmem
    rcases List.mem_cons.mp hmem with rfl | hmem
    · exact foldRules_preserves secrets ns opts t _ _
        (applyRule_sets secrets ns opts hosts rule)
    · exact ih _ rule hmem

theorem foldIngs_preserves (secrets : List (ObjectKey × CertifiedKey)) :
    ∀ (ings : List (ObjectKey × Ingress)) (hosts : List Nat → Option HostConfig)
      (h : List Nat), (hosts h).isSome = true →
      ((ings.foldl (applyIngress secrets) hosts) h).isSome = true := by
  intro ings
  induction ings with
  | nil => intro hosts h hh; exact hh
  | cons kv t ih =>
    intro hosts h hh
    exact ih _ _ (foldRules_preserves secrets kv.1.ns kv.2.endpoint_opts kv.2.rules hosts h hh)

/-- **C6** (amended) — every ingress rule folded into a snapshot is stored
under the rule's host **verbatim** (not its lowercase form): the key
`rule.host` is always present, and the lookup of the normalized (lowercased)
request host finds it exactly when the normalized host equals the rule's host
as stored. -/
theorem c6_snapshot_keys (st : WatcherState) (k : ObjectKey) (ing : Ingress)
    (rule : IngressRule) (hk : (k, ing) ∈ st.ingresses) (hr : rule ∈ ing.rules) :
    (assembleHosts st rule.host).isSome = true ∧
    (∀ hostHeader : List Nat, normalizeHost hostHeader = rule.host →
      (assembleHosts st (normalizeHost hostHeader)).isSome = true) := by
  have hmain : (assembleHosts st rule.host).isSome = true := by
    unfold assembleHosts
    have : ∀ (ings : List (ObjectKey × Ingress)) (hosts : List Nat → Option HostConfig),
        (k, ing) ∈ ings →
        ((ings.foldl (applyIngress st.secrets) hosts) rule.host).isSome = true := by
      intro ings
      induction ings with
      | nil => intro hosts hmem; simp at hmem
      | cons kv t ih =>
        intro hosts hmem
        rcases List.mem_cons.mp hmem with rfl | hmem
        · exact foldIngs_preserves st.secrets t _ _
            (foldRules_sets st.secrets k.ns ing.endpoint_opts ing.rules hosts rule hr)
        · exact ih _ hmem
    exact this st.ingresses _ hk
  exact ⟨hmain, fun hostHeader hn => by rw [hn]; exact hmain⟩

/-- Ingress rule with a mixed-case host, as the C6 counterexample. -/
def c6rule : IngressRule := ⟨bstr "A.Example", none, []⟩

/-- Watcher state holding one ingress whose rule's host is `A.Example`. -/
def c6state : WatcherState :=
  ⟨[(⟨bstr "default", bstr "ing"⟩, ⟨[c6rule], ⟨false, false, false⟩⟩)], true, [], true⟩

/-- **C6 counterexample** — the claim is false: `run_once` inserts under
`rule.host.clone()` with no lowercasing, so the rule with host `A.Example` is
stored under `A.Example` (present), NOT under its lowercase form
`a.example` — and the HTTP/1 lookup of the normalized request host
(`a.example`) misses it. -/
theorem c6_counterexample :
    (assembleHosts c6state (bstr "A.Example")).isSome = true ∧
    assembleHosts c6state (bstr "a.example") = none ∧
    normalizeHost (bstr "A.Example") = bstr "a.example" := by
  refine ⟨by decide, by decide, by decide⟩

/-- Lowercase-host variant used as the C6 witness. -/
def c6stateLower : WatcherState :=
  ⟨[(⟨bstr "default", bstr "ing"⟩, ⟨[⟨bstr "a.example", none, []⟩], ⟨false, false, false⟩⟩)],
    true, [], true⟩

/-- **C6 witness** — the amended theorem applied to the lowercase-host state:
the key is present and the normalized lookup of `A.Example:443` finds it. -/
theorem c6_witness :
    (assembleHosts c6stateLower (bstr "a.example")).isSome = true ∧
    (assembleHosts c6stateLower (normalizeHost (bstr "A.Example:443"))).isSome = true := by
  obtain ⟨h1, h2⟩ := c6_snapshot_keys c6stateLower ⟨bstr "default", bstr "ing"⟩
    ⟨[⟨bstr "a.example", none, []⟩], ⟨false, false, false⟩⟩ ⟨bstr "a.example", none, []⟩
    (by decide) (by decide)
  exact ⟨h1, h2 (bstr "A.Example:443") (by decide)⟩

/-! ## TLS server callbacks — `src/main.rs` `build_server_ssl_context` -/

/-- Result of the SNI callback: install a key/cert, or a fatal alert. -/
inductive SniResult
  | fatal
  | installed (kc : CertifiedKey)
deriving Repr, DecidableEq

/-- The SNI callback (src/main.rs lines 211–232): the client-supplied
`server_name` is looked up in the Hosts snapshot as-is (`ctx().host(name)` is
a `HashMap` get, byte-for-byte); missing name, unknown host, or a host
without a certificate give a fatal alert. -/
def sniCallback (hosts : List Nat → Option HostConfig)
    (serverName : Option (List Nat)) : SniResult :=
  match serverName with
  | none => .fatal
  | some name =>
    match hosts name with
    | none => .fatal
    | some cfg =>
      match cfg.tls_key_cert with
      | none => .fatal
      | some kc => .installed kc

/-- Modelled from the spec: `openssl::ssl::select_next_proto` (external to
this repository) selects the first server protocol present in the client's
list (§4.3 "first server protocol present in client list"). -/
def selectNextProto (server client : List (List Nat)) : Option (List Nat) :=
  server.find? (fun p => client.contains p)

/-- Result of the ALPN callback. -/
inductive AlpnResult
  | fatal
  | selected (proto : List Nat)
deriving Repr, DecidableEq

/-- The ALPN callback (src/main.rs lines 234–249): same unnormalized host
lookup; the server list is `["h2", "http/1.1"]` iff the host is h2-ready,
else `["http/1.1"]` (`ALPN_H2_H1`/`ALPN_H1`, src/lib.rs lines 11–13). -/
def alpnCallback (hosts : List Nat → Option HostConfig)
    (serverName : Option (List Nat)) (clientProtos : List (List Nat)) : AlpnResult :=
  match serverName with
  | none => .fatal
  | some name =>
    match hosts name with
    | none => .fatal
    | some cfg =>
      let server :=
        if cfg.is_h2_ready then [bstr "h2", bstr "http/1.1"] else [bstr "http/1.1"]
      match selectNextProto server clientProtos with
      | none => .fatal
      | some p => .selected p

/-- The HTTP/1 path's host lookup (src/main.rs lines 330–339): the Host
header value is normalized (trim, lowercase, strip `:port`) before the
lookup. -/
def http1HostLookup (hosts : List Nat → Option HostConfig)
    (hostHeaderValue : List Nat) : Option HostConfig :=
  hosts (normalizeHost hostHeaderValue)

/-- **C10** — the SNI and ALPN callbacks look the server_name up
byte-for-byte with no normalization: whenever the snapshot misses the exact
name but holds its normalized (e.g. lowercased) form — as with a server_name
differing from a key only in ASCII case — both callbacks give a fatal alert,
while the HTTP/1 path's normalized lookup of the same bytes finds the
host. -/
theorem c10_sni_alpn_byte_lookup (hosts : List Nat → Option HostConfig)
    (name : List Nat) (cfg : HostConfig) (clientProtos : List (List Nat))
    (hmiss : hosts name = none)
    (hhit : hosts (normalizeHost name) = some cfg) :
    sniCallback hosts (some name) = .fatal ∧
    alpnCallback hosts (some name) clientProtos = .fatal ∧
    http1HostLookup hosts name = some cfg := by
  refine ⟨?_, ?_, hhit⟩ <;> simp [sniCallback, alpnCallback, hmiss]

/-- Snapshot for the C10 witness: exactly the lowercase host `a.example`. -/
def c10hosts : List Nat → Option HostConfig :=
  fun b => if b = bstr "a.example" then some HostConfig.empty else none

/-- **C10 witness** — with the snapshot keyed `a.example`, the server_name
`A.Example` (differing only in ASCII case) gets a fatal alert from both TLS
callbacks while the HTTP/1 lookup finds the host. -/
theorem c10_witness :
    sniCallback c10hosts (some (bstr "A.Example")) = .fatal ∧
    alpnCallback c10hosts (some (bstr "A.Example")) [bstr "http/1.1"] = .fatal ∧
    http1HostLookup c10hosts (bstr "A.Example") = some HostConfig.empty :=
  c10_sni_alpn_byte_lookup c10hosts (bstr "A.Example") HostConfig.empty
    [bstr "http/1.1"] (by decide) (by decide)

/-! ## Resolver cache single-flight — `src/resolvers/cache.rs` `Cache::resolve`

The claim's scenario: a set of concurrent `resolve(E)` calls for one Endpoint
E through a cache of non-zero capacity. All tasks use the same key, so
`lru.lock().get_or_insert(key, …)` always hands out the same slot
(`Arc<Mutex<Option<ResolveResult>>>`); the interleaving of the tasks is
modelled as a small-step transition system. Result values are abstracted to
`Nat`; the expiry policy (`Cache::is_expired`) is an abstract predicate. -/

/-- Where one task is inside `Cache::resolve` (src/resolvers/cache.rs lines
36–66) for the shared key. -/
inductive ResolvePhase
  | start
  | gotSlot
  | locked
  | resolving
  | done (r : Nat) (viaCache : Bool)
deriving Repr, DecidableEq

/-- Global state of the claim's scenario: the slot's mutex holder, the slot
contents, the ghost list of every result an underlying resolver call has
produced, and each task's phase. -/
structure CacheState (n : Nat) where
  slotLock : Option (Fin n)
  slotVal : Option Nat
  produced : List Nat
  phase : Fin n → ResolvePhase

/-- Pointwise phase update. -/
def updPhase {n : Nat} (ph : Fin n → ResolvePhase) (t : Fin n) (p : ResolvePhase) :
    Fin n → ResolvePhase :=
  fun t' => if t' = t then p else ph t'

/-- One scheduling step of the scenario, following `Cache::resolve`:
`getSlot` = the LRU-locked `get_or_insert` + clone; `lockSlot` =
`cache_entry.lock().await`; `useCached` = returning an unexpired cached
result (releasing the slot lock); `beginResolve` = falling through to
`resolve_no_cache` while still holding the slot lock (miss or expired);
`finishResolve` = the underlying call returning `r`, storing it in the slot
and releasing the lock. -/
inductive CacheStep (expired : Nat → Bool) {n : Nat} :
    CacheState n → CacheState n → Prop
  | getSlot (s : CacheState n) (t : Fin n) (h : s.phase t = .start) :
      CacheStep expired s { s with phase := updPhase s.phase t .gotSlot }
  | lockSlot (s : CacheState n) (t : Fin n) (h : s.phase t = .gotSlot)
      (hl : s.slotLock = none) :
      CacheStep expired s
        { s with slotLock := some t, phase := updPhase s.phase t .locked }
  | useCached (s : CacheState n) (t : Fin n) (r : Nat) (h : s.phase t = .locked)
      (hv : s.slotVal = some r) (hf : expired r = false) :
      CacheStep expired s
        { s with slotLock := none, phase := updPhase s.phase t (.done r true) }
  | beginResolve (s : CacheState n) (t : Fin n) (h : s.phase t = .locked)
      (hv : s.slotVal = none ∨ ∃ r, s.slotVal = some r ∧ expired r = true) :
      CacheStep expired s { s with phase := updPhase s.phase t .resolving }
  | finishResolve (s : CacheState n) (t : Fin n) (r : Nat)
      (h : s.phase t = .resolving) :
      CacheStep expired s
        { s with slotVal := some r, slotLock := none,
                 produced := r :: s.produced,
                 phase := updPhase s.phase t (.done r false) }

/-- All tasks yet to run; empty slot. -/
def initCacheState (n : Nat) : CacheState n := ⟨none, none, [], fun _ => .start⟩

/-- States reachable by interleaving the concurrent `resolve(E)` calls. -/
def CacheReachable (expired : Nat → Bool) {n : Nat} (s : CacheState n) : Prop :=
  Relation.ReflTransGen (CacheStep expired) (initCacheState n) s

/-- The inductive invariant: a task in the critical section (locked or
resolving) holds the slot lock; every cached value and every value returned
from the cache was produced by an underlying resolver call. -/
def CacheInv {n : Nat} (s : CacheState n) : Prop :=
  (∀ t : Fin n, (s.phase t = .locked ∨ s.phase t = .resolving) → s.slotLock = some t) ∧
  (∀ r : Nat, s.slotVal = some r → r ∈ s.produced) ∧
  (∀ (t : Fin n) (r : Nat), s.phase t = .done r true → r ∈ s.produced)

theorem cacheInv_init (n : Nat) : CacheInv (initCacheState n) := by
  refine ⟨fun t ht => ?_, fun r hr => ?_, fun t r ht => ?_⟩
  · rcases ht with h | h <;> simp [initCacheState] at h
  · simp [initCacheState] at hr
  · simp [initCacheState] at ht

theorem cacheInv_step {expired : Nat → Bool} {n : Nat} {s s' : CacheState n}
    (hinv : CacheInv s) (hstep : CacheStep expired s s') : CacheInv s' := by
  obtain ⟨hlock, hval, hdone⟩ := hinv
  cases hstep with
  | getSlot t h =>
    refine ⟨fun t' ht' => ?_, hval, fun t' r ht' => ?_⟩
    · by_cases he : t' = t
      · subst he
        simp [updPhase] at ht'
      · simp only [updPhase] at ht'
        rw [if_neg he] at ht'
        exact hlock t' ht'
    · by_cases he : t' = t
      · subst he
        simp [updPhase] at ht'
      · simp only [updPhase] at ht'
        rw [if_neg he] at ht'
        exact hdone t' r ht'
  | lockSlot t h hl =>
    refine ⟨fun t' ht' => ?_, hval, fun t' r ht' => ?_⟩
    · by_cases he : t' = t
      · subst he; rfl
      · simp only [updPhase] at ht'
        rw [if_neg he] at ht'
        have := hlock t' ht'
        rw [hl] at this
        cases this
    · by_cases he : t' = t
      · subst he
        simp [updPhase] at ht'
      · simp only [updPhase] at ht'
        rw [if_neg he] at ht'
        exact hdone t' r ht'
  | useCached t r h hv hf =>
    have hself : s.slotLock = some t := hlock t (Or.inl h)
    refine ⟨fun t' ht' => ?_, hval, fun t' r' ht' => ?_⟩
    · by_cases he : t' = t
      · subst he
        simp [updPhase] at ht'
      · simp only [updPhase] at ht'
        rw [if_neg he] at ht'
        have h2 := hlock t' ht'
        rw [hself] at h2
        injection h2 with h2
        exact absurd h2.symm he
    · by_cases he : t' = t
      · subst he
        simp only [updPhase, if_pos rfl] at ht'
        injection ht' with h1 h2
        subst h1
        exact hval r hv
      · simp only [updPhase] at ht'
        rw [if_neg he] at ht'
        exact hdone t' r' ht'
  | beginResolve t h hv =>
    have hself : s.slotLock = some t := hlock t (Or.inl h)
    refine ⟨fun t' ht' => ?_, hval, fun t' r' ht' => ?_⟩
    · by_cases he : t' = t
      · subst he
        exact hself
      · simp only [updPhase] at ht'
        rw [if_neg he] at ht'
        exact hlock t' ht'
    · by_cases he : t' = t
      · subst he
        simp [updPhase] at ht'
      · simp only [updPhase] at ht'
        rw [if_neg he] at ht'
        exact hdone t' r' ht'
  | finishResolve t r h =>
    have hself : s.slotLock = some t := hlock t (Or.inr h)
    refine ⟨fun t' ht' => ?_, fun r' hr' => ?_, fun t' r' ht' => ?_⟩
    · by_cases he : t' = t
      · subst he
        simp [updPhase] at ht'
      · simp only [updPhase] at ht'
        rw [if_neg he] at ht'
        have h2 := hlock t' ht'
        rw [hself] at h2
        injection h2 with h2
        exact absurd h2.symm he
    · simp only at hr'
      injection hr' with hr'
      subst hr'
      exact List.mem_cons_self _ _
    · by_cases he : t' = t
      · subst he
        simp [updPhase] at ht'
      · simp only [updPhase] at ht'
        rw [if_neg he] at ht'
        exact List.mem_cons_of_mem _ (hdone t' r' ht')

theorem cacheInv_reachable {expired : Nat → Bool} {n : Nat} {s : CacheState n}
    (h : CacheReachable expired s) : CacheInv s := by
  induction h with
  | refl => exact cacheInv_init n
  | tail _ hstep ih => exact cacheInv_step ih hstep

/-- **C8** — in every reachable interleaving of concurrent `resolve(E)`
calls through the cache, at most one underlying resolver call for E is in
flight at any time (tasks in `resolving` phase coincide), and every value a
caller obtains from the cache was produced by an underlying (in-flight)
call — the waiting callers reuse that call's result. -/
theorem c8_single_flight (expired : Nat → Bool) {n : Nat} (s : CacheState n)
    (h : CacheReachable expired s) :
    (∀ t1 t2 : Fin n, s.phase t1 = .resolving → s.phase t2 = .resolving → t1 = t2) ∧
    (∀ (t : Fin n) (r : Nat), s.phase t = .done r true → r ∈ s.produced) := by
  obtain ⟨hlock, -, hdone⟩ := cacheInv_reachable h
  refine ⟨fun t1 t2 h1 h2 => ?_, hdone⟩
  have e1 := hlock t1 (Or.inr h1)
  have e2 := hlock t2 (Or.inr h2)
  rw [e1] at e2
  injection e2

/-- A concrete 2-task trace for the C8 witness: task 0 misses, resolves and
stores `7`; task 1 then locks the slot and reuses the cached `7`. -/
def c8s1 : CacheState 2 :=
  { initCacheState 2 with phase := updPhase (initCacheState 2).phase 0 .gotSlot }

/-- Task 0 acquires the slot lock. -/
def c8s2 : CacheState 2 :=
  { c8s1 with slotLock := some 0, phase := updPhase c8s1.phase 0 .locked }

/-- Task 0 misses (slot empty) and starts the underlying call. -/
def c8s3 : CacheState 2 := { c8s2 with phase := updPhase c8s2.phase 0 .resolving }

/-- Task 0's call returns 7; stored, lock released. -/
def c8s4 : CacheState 2 :=
  { c8s3 with slotVal := some 7, slotLock := none, produced := 7 :: c8s3.produced,
              phase := updPhase c8s3.phase 0 (.done 7 false) }

/-- Task 1 takes its slot handle. -/
def c8s5 : CacheState 2 := { c8s4 with phase := updPhase c8s4.phase 1 .gotSlot }

/-- Task 1 acquires the slot lock. -/
def c8s6 : CacheState 2 :=
  { c8s5 with slotLock := some 1, phase := updPhase c8s5.phase 1 .locked }

/-- Task 1 finds the fresh cached 7 and returns it. -/
def c8s7 : CacheState 2 :=
  { c8s6 with slotLock := none, phase := updPhase c8s6.phase 1 (.done 7 true) }

/-- The never-expired policy used by the witness trace. -/
def c8fresh : Nat → Bool := fun _ => false

theorem c8_trace : CacheReachable c8fresh c8s7 :=
  Relation.ReflTransGen.tail
    (Relation.ReflTransGen.tail
      (Relation.ReflTransGen.tail
        (Relation.ReflTransGen.tail
          (Relation.ReflTransGen.tail
            (Relation.ReflTransGen.tail
              (Relation.ReflTransGen.tail Relation.ReflTransGen.refl
                (CacheStep.getSlot (initCacheState 2) 0 rfl))
              (CacheStep.lockSlot c8s1 0 rfl rfl))
            (CacheStep.beginResolve c8s2 0 rfl (Or.inl rfl)))
          (CacheStep.finishResolve c8s3 0 7 rfl))
        (CacheStep.getSlot c8s4 1 rfl))
      (CacheStep.lockSlot c8s5 1 rfl rfl))
    (CacheStep.useCached c8s6 1 7 rfl rfl rfl)

/-- **C8 witness** — the single-flight theorem applied to the concrete
reachable state `c8s7`: the reuse conjunct shows task 1's cache-hit value 7
is in the produced list. -/
theorem c8_witness :
    (∀ t1 t2 : Fin 2, c8s7.phase t1 = .resolving → c8s7.phase t2 = .resolving → t1 = t2) ∧
    (∀ (t : Fin 2) (r : Nat), c8s7.phase t = .done r true → r ∈ c8s7.produced) :=
  c8_single_flight c8fresh c8s7 c8_trace

end Kingress
